import Mathlib

/-!
Verification development for the oaf-3d-vision-pipeline-workshop repository.

The development shallowly embeds two parts of the repository:

* the projection / PnP code of workshop 04 (`project_points_simple`,
  `project_points`, `solve_pnp` and its calling cell), whose Python source
  is present in the repository, and
* the dense stereo correspondence core (`block_matching`, `plane_sweeping`,
  `triangulate_disparity`), whose implementation lives in the
  `oaf_vision_3d` package that is only imported by the notebooks; those
  functions are modelled from the specification, as marked on each
  definition.

Real-valued image data is modelled by `ℚ`.  For the claims that are about
IEEE floating-point behaviour (division by zero producing infinities and
NaN, and NaN substitution by the `solve_pnp` calling cell) we use `RVal`,
an extended value type with `inf`, `ninf` and `nan` whose arithmetic
follows the IEEE rules that numpy implements.
-/

/-! ## Basic linear-algebra data types -/

/-- A 3D point or vector, the row of an `(n, 3)` numpy array. -/
structure Vec3 (α : Type) where
  x : α
  y : α
  z : α
deriving DecidableEq

/-- A 3×3 matrix given by its rows, as produced by `cv2.Rodrigues`. -/
structure Mat3 (α : Type) where
  r0 : Vec3 α
  r1 : Vec3 α
  r2 : Vec3 α
deriving DecidableEq

/-- Dot product of two 3-vectors. -/
def dotV {α : Type} [Add α] [Mul α] (u v : Vec3 α) : α :=
  u.x * v.x + u.y * v.y + u.z * v.z

/-- `m` applied to a column vector `v`; `points @ rotation_matrix.T` applies
this row-wise. -/
def matVec {α : Type} [Add α] [Mul α] (m : Mat3 α) (v : Vec3 α) : Vec3 α :=
  ⟨dotV m.r0 v, dotV m.r1 v, dotV m.r2 v⟩

/-- Componentwise vector addition, `+ tvec[None, :]` in the source. -/
def vadd {α : Type} [Add α] (u v : Vec3 α) : Vec3 α :=
  ⟨u.x + v.x, u.y + v.y, u.z + v.z⟩

/-- The identity 3×3 matrix over `ℚ`, the Rodrigues matrix of the zero
rotation vector. -/
def idMat3 : Mat3 ℚ :=
  ⟨⟨1, 0, 0⟩, ⟨0, 1, 0⟩, ⟨0, 0, 1⟩⟩

/-! ## Camera model

`CameraMatrix`, `DistortionCoefficients` and `LensModel` are the records
constructed in workshop 04 (`oaf_vision_3d.lens_model`).  The bodies of the
conversion methods `distort_pixels` and `denormalize_pixels` are not under
the sources; they are modelled from the spec. -/

/-- Camera intrinsics: focal lengths and principal point, the fields passed
to `CameraMatrix(fx=..., fy=..., cx=..., cy=...)` in workshop 04. -/
structure CameraMatrix (α : Type) where
  fx : α
  fy : α
  cx : α
  cy : α
deriving DecidableEq

/-- Radial (`k1`, `k2`) and tangential (`p1`, `p2`) distortion
coefficients, the fields of `DistortionCoefficients` in workshop 04. -/
structure DistortionCoefficients (α : Type) where
  k1 : α
  k2 : α
  p1 : α
  p2 : α
deriving DecidableEq

/-- A lens model: intrinsics plus distortion coefficients. -/
structure LensModel (α : Type) where
  camera_matrix : CameraMatrix α
  distortion_coefficients : DistortionCoefficients α
deriving DecidableEq

/-- Modelled from the spec: the body of `LensModel.distort_pixels` is in the
`oaf_vision_3d.lens_model` module, which is missing from the sources.  The
spec describes the lens model as "radial/tangential distortion coefficients"
with "pixel↔normalized-coordinate conversion with distortion applied";
this is the standard Brown radial/tangential polynomial on normalized
coordinates. -/
def distort_pixels {α : Type} [Add α] [Mul α] [One α] [OfNat α 2]
    (dc : DistortionCoefficients α) (p : α × α) : α × α :=
  let x := p.1
  let y := p.2
  let r2 := x * x + y * y
  let radial := 1 + dc.k1 * r2 + dc.k2 * (r2 * r2)
  (x * radial + 2 * dc.p1 * (x * y) + dc.p2 * (r2 + 2 * (x * x)),
   y * radial + dc.p1 * (r2 + 2 * (y * y)) + 2 * dc.p2 * (x * y))

/-- Modelled from the spec: the body of `LensModel.denormalize_pixels` is in
the `oaf_vision_3d.lens_model` module, which is missing from the sources.
Denormalization maps normalized image coordinates to pixel coordinates
through the camera matrix. -/
def denormalize_pixels {α : Type} [Add α] [Mul α]
    (cm : CameraMatrix α) (p : α × α) : α × α :=
  (p.1 * cm.fx + cm.cx, p.2 * cm.fy + cm.cy)

/-- One point of `project_points_simple` from workshop 04: perspective
division by `Z` (unguarded, exactly as `points[None, :, :2] /
points[None, :, 2:]` in the source), then distortion, then
denormalization. -/
def projectPoint {α : Type} [Add α] [Mul α] [Div α] [One α] [OfNat α 2]
    (lm : LensModel α) (p : Vec3 α) : α × α :=
  denormalize_pixels lm.camera_matrix
    (distort_pixels lm.distortion_coefficients (p.x / p.z, p.y / p.z))

/-- `project_points_simple` from workshop 04, applied row-wise to the input
point array. -/
def project_points_simple {α : Type} [Add α] [Mul α] [Div α] [One α] [OfNat α 2]
    (points : List (Vec3 α)) (lm : LensModel α) : List (α × α) :=
  points.map (projectPoint lm)

/-- `project_points` from workshop 04.  The source obtains the rotation
matrix from the external primitive `cv2.Rodrigues`; following the spec's
design note the external projection primitive is treated as an injected
capability, so the Rodrigues conversion is a parameter.  The body is
`points @ rotation_matrix.T + tvec[None, :]` followed by
`project_points_simple`. -/
def project_points (rodrigues : Vec3 ℚ → Mat3 ℚ) (points : List (Vec3 ℚ))
    (rvec tvec : Vec3 ℚ) (lens_model : LensModel ℚ) : List (ℚ × ℚ) :=
  project_points_simple
    (points.map (fun p => vadd (matVec (rodrigues rvec) p) tvec)) lens_model

/-! ## IEEE-style extended values

`RVal` models the IEEE special values that numpy float arrays propagate:
positive and negative infinity and NaN, with finite values modelled by
`ℚ`.  The arithmetic cases follow IEEE 754 (and numpy's behaviour for
division by zero). -/

/-- An IEEE-style scalar: finite rational, ±infinity, or NaN. -/
inductive RVal : Type
  | fin : ℚ → RVal
  | inf : RVal
  | ninf : RVal
  | nan : RVal
deriving DecidableEq

/-- IEEE addition on extended values. -/
def RVal.add : RVal → RVal → RVal
  | fin a, fin b => fin (a + b)
  | fin _, inf => inf
  | fin _, ninf => ninf
  | fin _, nan => nan
  | inf, fin _ => inf
  | inf, inf => inf
  | inf, ninf => nan
  | inf, nan => nan
  | ninf, fin _ => ninf
  | ninf, inf => nan
  | ninf, ninf => ninf
  | ninf, nan => nan
  | nan, _ => nan

/-- IEEE multiplication on extended values. -/
def RVal.mul : RVal → RVal → RVal
  | fin a, fin b => fin (a * b)
  | fin a, inf => if 0 < a then inf else if a < 0 then ninf else nan
  | fin a, ninf => if 0 < a then ninf else if a < 0 then inf else nan
  | fin _, nan => nan
  | inf, fin b => if 0 < b then inf else if b < 0 then ninf else nan
  | inf, inf => inf
  | inf, ninf => ninf
  | inf, nan => nan
  | ninf, fin b => if 0 < b then ninf else if b < 0 then inf else nan
  | ninf, inf => ninf
  | ninf, ninf => inf
  | ninf, nan => nan
  | nan, _ => nan

/-- IEEE division on extended values: finite / 0 gives a signed infinity
(NaN for 0 / 0), exactly as numpy reports for float arrays. -/
def RVal.div : RVal → RVal → RVal
  | fin a, fin b =>
      if b = 0 then (if 0 < a then inf else if a < 0 then ninf else nan)
      else fin (a / b)
  | fin _, inf => fin 0
  | fin _, ninf => fin 0
  | fin _, nan => nan
  | inf, fin b => if 0 ≤ b then inf else ninf
  | inf, inf => nan
  | inf, ninf => nan
  | inf, nan => nan
  | ninf, fin b => if 0 ≤ b then ninf else inf
  | ninf, inf => nan
  | ninf, ninf => nan
  | ninf, nan => nan
  | nan, _ => nan

instance : Add RVal := ⟨RVal.add⟩

instance : Mul RVal := ⟨RVal.mul⟩

instance : Div RVal := ⟨RVal.div⟩

instance : One RVal := ⟨RVal.fin 1⟩

instance : OfNat RVal 2 := ⟨RVal.fin 2⟩

/-- A value is non-finite when it is an infinity or NaN. -/
def RVal.nonFinite : RVal → Bool
  | fin _ => false
  | _ => true

theorem RVal.add_def (a b : RVal) : a + b = RVal.add a b := rfl

theorem RVal.mul_def (a b : RVal) : a * b = RVal.mul a b := rfl

theorem RVal.div_def (a b : RVal) : a / b = RVal.div a b := rfl

/-! ## `solve_pnp` and its calling cell (workshop 04) -/

/-- Embedding of `solve_pnp` from workshop 04.  In the source the entire
function body is the ellipsis placeholder `...`, so the Python function
evaluates `Ellipsis` and falls through, returning `None` for every input;
the Gauss-Newton iteration described in the surrounding text is never
executed. -/
def solve_pnp (points : List (Vec3 RVal)) (pixels : List (RVal × RVal))
    (lens_model : LensModel RVal) (rvec tvec : Vec3 RVal)
    (epsilon : ℚ) (max_iterations : ℕ) : Option (Vec3 RVal × Vec3 RVal) :=
  none

/-- Elementwise scaling of a vector by a scalar, `rvec_initial * np.nan` in
the calling cell. -/
def vecScale (v : Vec3 RVal) (s : RVal) : Vec3 RVal :=
  ⟨v.x * s, v.y * s, v.z * s⟩

/-- The all-NaN vector that the calling cell produces. -/
def nanVec : Vec3 RVal :=
  ⟨RVal.nan, RVal.nan, RVal.nan⟩

/-- The calling cell of workshop 04: run `solve_pnp` and, when it returns
`None`, substitute `rvec_initial * np.nan` and `tvec_initial * np.nan`. -/
def solve_pnp_and_unpack (points : List (Vec3 RVal))
    (pixels : List (RVal × RVal)) (lens_model : LensModel RVal)
    (rvec_initial tvec_initial : Vec3 RVal)
    (epsilon : ℚ) (max_iterations : ℕ) : Vec3 RVal × Vec3 RVal :=
  match solve_pnp points pixels lens_model rvec_initial tvec_initial
      epsilon max_iterations with
  | none => (vecScale rvec_initial RVal.nan, vecScale tvec_initial RVal.nan)
  | some rt => rt

/-! ## Images and the block-matching core

The implementations of `block_matching`, `plane_sweeping` and
`triangulate_disparity` live in the `oaf_vision_3d` package and are only
imported by the notebooks under the sources, so the definitions below are
modelled from the spec (sections 3, 4.1, 4.2 and 4.3), as marked on each
definition. -/

/-- Modelled from the spec: the `Image` data model ("a 2D grid of
single-channel intensity samples", fixed height/width); the package module
holding the concrete array type is missing from the sources. -/
structure Image where
  h : ℕ
  w : ℕ
  pix : ℕ → ℕ → ℚ

/-- Precondition violations, spec section 7(a): reported immediately to the
caller, never silently coerced. -/
inductive PreError : Type
  | shapeMismatch : PreError
  | evenBlockSize : PreError
  | invalidRange : PreError
  | invalidStepSize : PreError
  | mismatchedLists : PreError
deriving DecidableEq

/-- Modelled from the spec: the inclusive list of candidate disparities of
`disparity_range = [min, max]`, enumerated from the lowest candidate
upward (`block_matching` is missing from the sources). -/
def candidateList (dmin dmax : ℤ) : List ℤ :=
  (List.range ((dmax - dmin).toNat + 1)).map (fun n : ℕ => dmin + (n : ℤ))

/-- Does the `(2*bh2+1) × (2*bw2+1)` window centred at `(i, j)` fit fully
inside the image? -/
def windowFits (img : Image) (bh2 bw2 i j : ℕ) : Bool :=
  decide (bh2 ≤ i) && decide (i + bh2 < img.h) &&
    decide (bw2 ≤ j) && decide (j + bw2 < img.w)

/-- Does the window of `image_1` shifted by disparity `d` stay inside the
bounds of `image_1`? -/
def shiftValid (img1 : Image) (bw2 j : ℕ) (d : ℤ) : Bool :=
  decide (0 ≤ (j : ℤ) - bw2 - d) && decide ((j : ℤ) + bw2 - d < (img1.w : ℤ))

/-- Modelled from the spec: the sum-of-squared-differences similarity score
between the window of `image_0` centred at `(i, j)` and the window of
`image_1` shifted by disparity `d` (`block_matching` is missing from the
sources). -/
def windowScore (img0 img1 : Image) (bh2 bw2 i j : ℕ) (d : ℤ) : ℚ :=
  ((List.range (2 * bh2 + 1)).map (fun di =>
    ((List.range (2 * bw2 + 1)).map (fun dj =>
      let r := i - bh2 + di
      let c := j - bw2 + dj
      let c1 := ((c : ℤ) - d).toNat
      (img0.pix r c - img1.pix r c1) * (img0.pix r c - img1.pix r c1))).sum)).sum

/-- The candidate disparities whose shifted window stays in bounds, paired
with their similarity scores, in search order. -/
def scoredCandidates (img0 img1 : Image) (dmin dmax : ℤ) (bh2 bw2 i j : ℕ) :
    List (ℤ × ℚ) :=
  ((candidateList dmin dmax).filter (shiftValid img1 bw2 j)).map
    (fun d => (d, windowScore img0 img1 bh2 bw2 i j d))

/-- Running minimum over a scored candidate list: a later candidate replaces
the current best only on a strictly smaller score, so ties keep the
first-encountered candidate. -/
def argminAcc {β : Type} : β × ℚ → List (β × ℚ) → β × ℚ
  | best, [] => best
  | best, p :: ps => if p.2 < best.2 then argminAcc p ps else argminAcc best ps

/-- Modelled from the spec: the per-pixel disparity selection of
`block_matching` (missing from the sources).  Border pixels whose window
does not fit, and pixels whose shifted window leaves `image_1` for every
candidate, receive the invalid marker `none`; otherwise the score-minimizing
candidate is selected, ties broken by the first-encountered candidate. -/
def disparityMap (img0 img1 : Image) (dmin dmax : ℤ) (bh bw : ℕ) :
    ℕ → ℕ → Option ℤ :=
  fun i j =>
    if windowFits img0 (bh / 2) (bw / 2) i j then
      match scoredCandidates img0 img1 dmin dmax (bh / 2) (bw / 2) i j with
      | [] => none
      | p :: ps => some (argminAcc p ps).1
    else none

/-- Modelled from the spec: `block_matching(image_0, image_1,
disparity_range, block_size)` (missing from the sources).  Precondition
violations — mismatched shapes, an even block side, an empty disparity
range — are reported immediately; otherwise the per-pixel disparity map is
returned. -/
def block_matching (image_0 image_1 : Image) (disparity_range : ℤ × ℤ)
    (block_size : ℕ × ℕ) : Except PreError (ℕ → ℕ → Option ℤ) :=
  if image_0.h = image_1.h ∧ image_0.w = image_1.w then
    if block_size.1 % 2 = 1 ∧ block_size.2 % 2 = 1 then
      if disparity_range.1 ≤ disparity_range.2 then
        Except.ok (disparityMap image_0 image_1 disparity_range.1
          disparity_range.2 block_size.1 block_size.2)
      else Except.error PreError.invalidRange
    else Except.error PreError.evenBlockSize
  else Except.error PreError.shapeMismatch

/-! ## Pixel normalization over `ℚ` -/

/-- Modelled from the spec: removal of lens distortion from normalized
coordinates ("distortion removed", `oaf_vision_3d.lens_model` is missing
from the sources), by the standard fixed-count fixed-point iteration that
inverts `distort_pixels`.  With zero distortion coefficients it is the
identity. -/
def undistortNormalized (dc : DistortionCoefficients ℚ) (pd : ℚ × ℚ) :
    ℕ → ℚ × ℚ
  | 0 => pd
  | n + 1 =>
    let p := undistortNormalized dc pd n
    let x := p.1
    let y := p.2
    let r2 := x * x + y * y
    let radial := 1 + dc.k1 * r2 + dc.k2 * (r2 * r2)
    ((pd.1 - (2 * dc.p1 * (x * y) + dc.p2 * (r2 + 2 * (x * x)))) / radial,
     (pd.2 - (dc.p1 * (r2 + 2 * (y * y)) + 2 * dc.p2 * (x * y))) / radial)

/-- Modelled from the spec: the pixel → normalized-coordinate conversion of
the lens model, with distortion removed (the module is missing from the
sources). -/
def normalize_pixels (lm : LensModel ℚ) (p : ℚ × ℚ) : ℚ × ℚ :=
  undistortNormalized lm.distortion_coefficients
    ((p.1 - lm.camera_matrix.cx) / lm.camera_matrix.fx,
     (p.2 - lm.camera_matrix.cy) / lm.camera_matrix.fy) 5

/-- Modelled from the spec: back-projection of reference pixel `(j, i)` to
the 3D point at depth `z` along its ray (spec section 4.2 step 1). -/
def backProjectPixel (lm : LensModel ℚ) (j i : ℕ) (z : ℚ) : Vec3 ℚ :=
  let n := normalize_pixels lm ((j : ℚ), (i : ℚ))
  ⟨n.1 * z, n.2 * z, z⟩

/-- A rigid relative pose: `P_secondary = R · P_reference + t`, the spec's
`Relative Pose` data model. -/
structure Pose where
  R : Mat3 ℚ
  t : Vec3 ℚ

/-! ## Plane sweeping -/

/-- Modelled from the spec: the candidate depth planes of
`depth_range = [min, max]` stepped by `step_size`, "inclusive of both ends,
last step may be clipped" (`plane_sweeping` is missing from the
sources). -/
def depthPlanes (zmin zmax step : ℚ) : List ℚ :=
  (List.range (⌈(zmax - zmin) / step⌉.toNat + 1)).map
    (fun n : ℕ => min (zmin + (n : ℚ) * step) zmax)

/-- Modelled from the spec: bilinear interpolation of the image at a
possibly non-integer coordinate; out-of-bounds coordinates do not
contribute (`plane_sweeping` is missing from the sources). -/
def sampleBilinear (img : Image) (px py : ℚ) : Option ℚ :=
  let x0 := ⌊px⌋
  let y0 := ⌊py⌋
  if 0 ≤ x0 ∧ x0 + 1 < (img.w : ℤ) ∧ 0 ≤ y0 ∧ y0 + 1 < (img.h : ℤ) then
    let wx := px - (x0 : ℚ)
    let wy := py - (y0 : ℚ)
    let i0 := y0.toNat
    let j0 := x0.toNat
    some ((1 - wx) * (1 - wy) * img.pix i0 j0 +
          wx * (1 - wy) * img.pix i0 (j0 + 1) +
          (1 - wx) * wy * img.pix (i0 + 1) j0 +
          wx * wy * img.pix (i0 + 1) (j0 + 1))
  else none

/-- Modelled from the spec: transform a reference-frame 3D point by the
secondary's relative pose and project it into the secondary image through
its lens model; points not in front of the secondary camera do not
contribute (spec section 4.2 steps 2-3). -/
def projectIntoSecondary (lm : LensModel ℚ) (pose : Pose) (p : Vec3 ℚ) :
    Option (ℚ × ℚ) :=
  let q := vadd (matVec pose.R p) pose.t
  if 0 < q.z then some (projectPoint lm q) else none

/-- Modelled from the spec: the windowed photometric cost of one secondary
image at reference pixel `(i, j)` and candidate depth `z`; `none` when any
window sample projects out of bounds, making this secondary
non-contributing there (spec section 4.2 step 4). -/
def secondaryCost (img0 : Image) (lm0 : LensModel ℚ)
    (sec : Image × LensModel ℚ × Pose) (bh2 bw2 i j : ℕ) (z : ℚ) :
    Option ℚ :=
  let cells := (List.range (2 * bh2 + 1)).flatMap
    (fun di => (List.range (2 * bw2 + 1)).map (fun dj => (di, dj)))
  let diffs : List (Option ℚ) := cells.map (fun c =>
    let r := i - bh2 + c.1
    let cc := j - bw2 + c.2
    let p := backProjectPixel lm0 cc r z
    match projectIntoSecondary sec.2.1 sec.2.2 p with
    | none => none
    | some px =>
      match sampleBilinear sec.1 px.1 px.2 with
      | none => none
      | some v => some ((img0.pix r cc - v) * (img0.pix r cc - v)))
  if diffs.all Option.isSome then some ((diffs.filterMap id).sum) else none

/-- Modelled from the spec: the aggregated cost at one pixel and depth, the
mean of the contributing secondaries' costs; `none` when no secondary
contributes (spec section 4.2 step 4). -/
def aggregateCost (img0 : Image) (lm0 : LensModel ℚ)
    (secs : List (Image × LensModel ℚ × Pose)) (bh2 bw2 i j : ℕ) (z : ℚ) :
    Option ℚ :=
  let costs := secs.filterMap (fun s => secondaryCost img0 lm0 s bh2 bw2 i j z)
  if costs.length = 0 then none else some (costs.sum / (costs.length : ℚ))

/-- Modelled from the spec: the per-pixel depth selection and
back-projection of `plane_sweeping` (missing from the sources).  Pixels
whose window does not fit, or where no secondary contributes at any depth,
receive the invalid marker `none`; otherwise the cost-minimizing depth is
selected and back-projected. -/
def sweepPixel (img0 : Image) (lm0 : LensModel ℚ)
    (secs : List (Image × LensModel ℚ × Pose)) (zs : List ℚ)
    (bh2 bw2 i j : ℕ) : Option (Vec3 ℚ) :=
  if windowFits img0 bh2 bw2 i j then
    match zs.filterMap (fun z =>
        (aggregateCost img0 lm0 secs bh2 bw2 i j z).map (fun c => (z, c))) with
    | [] => none
    | p :: ps => some (backProjectPixel lm0 j i (argminAcc p ps).1)
  else none

/-- Modelled from the spec: `plane_sweeping` (missing from the sources).
Precondition violations are reported immediately.  The spec leaves open
exactly when an entirely-invalid result grid is collapsed to a
wholly-absent result (section 9, open question); that unspecified choice
is the parameter `absentOnAllInvalid`.  When at least one pixel is valid
the full grid with per-pixel validity is returned. -/
def plane_sweeping (absentOnAllInvalid : Bool) (image : Image)
    (lens_model : LensModel ℚ) (secondary_images : List Image)
    (secondary_lens_models : List (LensModel ℚ))
    (secondary_transformation_matrices : List Pose)
    (depth_range : ℚ × ℚ) (step_size : ℚ) (block_size : ℕ × ℕ) :
    Except PreError (Option (ℕ → ℕ → Option (Vec3 ℚ))) :=
  if secondary_images.length = secondary_lens_models.length ∧
      secondary_images.length = secondary_transformation_matrices.length ∧
      0 < secondary_images.length then
    if 0 < step_size then
      if depth_range.1 ≤ depth_range.2 then
        if block_size.1 % 2 = 1 ∧ block_size.2 % 2 = 1 then
          let secs := secondary_images.zip
            (secondary_lens_models.zip secondary_transformation_matrices)
          let zs := depthPlanes depth_range.1 depth_range.2 step_size
          let grid := fun i j => sweepPixel image lens_model secs zs
            (block_size.1 / 2) (block_size.2 / 2) i j
          let allInvalid := (List.range image.h).all
            (fun i => (List.range image.w).all (fun j => (grid i j).isNone))
          Except.ok (if absentOnAllInvalid && allInvalid then none
            else some grid)
        else Except.error PreError.evenBlockSize
      else Except.error PreError.invalidRange
    else Except.error PreError.invalidStepSize
  else Except.error PreError.mismatchedLists

/-! ## Triangulation -/

/-- A disparity map with its shape: one optional scalar per reference
pixel, the spec's `Disparity Map` data model. -/
structure DisparityMapQ where
  h : ℕ
  w : ℕ
  val : ℕ → ℕ → Option ℚ

/-- Modelled from the spec: triangulation of one pixel of
`triangulate_disparity` (missing from the sources), by the algebraic
stereo-baseline intersection the spec names: recover the normalized ray in
each camera through its own lens model, intersect using the baseline
component of the relative transform.  Degenerate (parallel) rays and
non-positive depth solutions yield the invalid marker `none`. -/
def triangulatePixel (lm0 lm1 : LensModel ℚ) (pose : Pose) (i j : ℕ)
    (d : ℚ) : Option (Vec3 ℚ) :=
  let n0 := normalize_pixels lm0 ((j : ℚ), (i : ℚ))
  let n1 := normalize_pixels lm1 ((j : ℚ) - d, (i : ℚ))
  let denom := n1.1 - n0.1
  if denom = 0 then none
  else
    let z := pose.t.x / denom
    if z ≤ 0 then none
    else some ⟨n0.1 * z, n0.2 * z, z⟩

/-- The per-pixel grid of `triangulate_disparity`: an invalid input
disparity propagates to the invalid marker `none`. -/
def triGrid (disparity : DisparityMapQ) (lm0 lm1 : LensModel ℚ)
    (pose : Pose) : ℕ → ℕ → Option (Vec3 ℚ) :=
  fun i j =>
    match disparity.val i j with
    | none => none
    | some d => triangulatePixel lm0 lm1 pose i j d

/-- Modelled from the spec: `triangulate_disparity` (missing from the
sources).  As for `plane_sweeping`, the spec only pins down that a
wholly-absent result may be returned when no pixel has a valid solution;
that choice is the parameter `absentOnAllInvalid`. -/
def triangulate_disparity (absentOnAllInvalid : Bool)
    (disparity : DisparityMapQ) (lens_model_0 lens_model_1 : LensModel ℚ)
    (transformation_matrix : Pose) : Option (ℕ → ℕ → Option (Vec3 ℚ)) :=
  let grid := triGrid disparity lens_model_0 lens_model_1
    transformation_matrix
  let allInvalid := (List.range disparity.h).all
    (fun i => (List.range disparity.w).all (fun j => (grid i j).isNone))
  if absentOnAllInvalid && allInvalid then none else some grid

/-! ## The 8×8 shifted-gradient scenario (spec section 8) -/

/-- The 8×8 uniform horizontal gradient image of the spec's scenario. -/
def gradImage0 : Image :=
  ⟨8, 8, fun _ j => (j : ℚ)⟩

/-- The same gradient shifted two pixels horizontally: the scene content of
`gradImage0` as seen two pixels to the left, so that pixel `(i, j)` of
`gradImage0` matches pixel `(i, j - 2)` here. -/
def gradImage1 : Image :=
  ⟨8, 8, fun _ j => (j : ℚ) + 2⟩

/-- The disparity map of the scenario: `block_matching` on the two gradient
images with `disparity_range = [0, 4]` and `block_size = 3×3`. -/
def scenario_dm : ℕ → ℕ → Option ℤ :=
  disparityMap gradImage0 gradImage1 0 4 3 3

/-! ## Helper lemmas -/

theorem argminAcc_le {β : Type} (l : List (β × ℚ)) (b : β × ℚ) :
    (argminAcc b l).2 ≤ b.2 ∧ ∀ p ∈ l, (argminAcc b l).2 ≤ p.2 := by
  induction l generalizing b with
  | nil => exact ⟨le_refl _, by simp⟩
  | cons p ps ih =>
    by_cases hlt : p.2 < b.2
    · have h2 := ih p
      refine ⟨?_, ?_⟩
      · simpa [argminAcc, hlt] using h2.1.trans hlt.le
      · intro q hq
        rcases List.mem_cons.mp hq with hq | hq
        · simpa [argminAcc, hlt, hq] using h2.1
        · simpa [argminAcc, hlt] using h2.2 q hq
    · have h2 := ih b
      refine ⟨by simpa [argminAcc, hlt] using h2.1, ?_⟩
      intro q hq
      rcases List.mem_cons.mp hq with hq | hq
      · have : (argminAcc b ps).2 ≤ b.2 := h2.1
        simpa [argminAcc, hlt, hq] using this.trans (not_lt.mp hlt)
      · simpa [argminAcc, hlt] using h2.2 q hq

theorem argminAcc_decomp {β : Type} (l : List (β × ℚ)) (b : β × ℚ) :
    ∃ pre post, b :: l = pre ++ argminAcc b l :: post ∧
      ∀ p ∈ pre, (argminAcc b l).2 < p.2 := by
  induction l generalizing b with
  | nil => exact ⟨[], [], rfl, by simp⟩
  | cons p ps ih =>
    by_cases hlt : p.2 < b.2
    · obtain ⟨pre, post, hdec, hpre⟩ := ih p
      refine ⟨b :: pre, post, ?_, ?_⟩
      · simpa [argminAcc, hlt] using congrArg (List.cons b) hdec
      · intro q hq
        rcases List.mem_cons.mp hq with hq | hq
        · have hle := (argminAcc_le ps p).1
          simpa [argminAcc, hlt, hq] using lt_of_le_of_lt hle hlt
        · simpa [argminAcc, hlt] using hpre q hq
    · obtain ⟨pre, post, hdec, hpre⟩ := ih b
      match pre, hdec with
      | [], hdec =>
        have hb : argminAcc b ps = b := (List.cons.injEq _ _ _ _).mp hdec |>.1.symm
        refine ⟨[], p :: ps, ?_, by simp⟩
        simp [argminAcc, hlt, hb]
      | q :: pre2, hdec =>
        have hq : q = b := ((List.cons.injEq _ _ _ _).mp hdec).1.symm
        have hps : ps = pre2 ++ argminAcc b ps :: post :=
          ((List.cons.injEq _ _ _ _).mp hdec).2
        refine ⟨b :: p :: pre2, post, ?_, ?_⟩
        · simpa [argminAcc, hlt] using congrArg (fun t => b :: p :: t) hps
        · intro r hr
          have hmb : (argminAcc b ps).2 < b.2 := by
            have := hpre q (by simp)
            rwa [hq] at this
          rcases List.mem_cons.mp hr with hr | hr
          · simpa [argminAcc, hlt, hr] using hmb
          · rcases List.mem_cons.mp hr with hr | hr
            · have := hmb.trans_le (not_lt.mp hlt)
              simpa [argminAcc, hlt, hr] using this
            · have := hpre r (by simp [hr])
              simpa [argminAcc, hlt] using this

theorem argminAcc_mem {β : Type} (l : List (β × ℚ)) (b : β × ℚ) :
    argminAcc b l ∈ b :: l := by
  obtain ⟨pre, post, hdec, _⟩ := argminAcc_decomp l b
  rw [hdec]
  exact List.mem_append.mpr (Or.inr (by simp))

theorem candidateList_bounds {dmin dmax d : ℤ} (hle : dmin ≤ dmax)
    (hd : d ∈ candidateList dmin dmax) : dmin ≤ d ∧ d ≤ dmax := by
  obtain ⟨n, hn, rfl⟩ := List.mem_map.mp hd
  rw [List.mem_range] at hn
  omega

theorem block_matching_ok_inv {image_0 image_1 : Image} {r : ℤ × ℤ}
    {bs : ℕ × ℕ} {dm : ℕ → ℕ → Option ℤ}
    (h : block_matching image_0 image_1 r bs = Except.ok dm) :
    (image_0.h = image_1.h ∧ image_0.w = image_1.w) ∧
      (bs.1 % 2 = 1 ∧ bs.2 % 2 = 1) ∧ r.1 ≤ r.2 ∧
      dm = disparityMap image_0 image_1 r.1 r.2 bs.1 bs.2 := by
  unfold block_matching at h
  split at h
  · split at h
    · split at h
      · refine ⟨by assumption, by assumption, by assumption, ?_⟩
        injection h with h2
        exact h2.symm
      · simp at h
    · simp at h
  · simp at h

theorem disparityMap_some_inv {image_0 image_1 : Image} {dmin dmax : ℤ}
    {bh bw : ℕ} {i j : ℕ} {d : ℤ}
    (hd : disparityMap image_0 image_1 dmin dmax bh bw i j = some d) :
    ∃ ps, scoredCandidates image_0 image_1 dmin dmax (bh / 2) (bw / 2) i j = ps ∧
      ps ≠ [] ∧ ∀ p0 ps2, ps = p0 :: ps2 → d = (argminAcc p0 ps2).1 := by
  unfold disparityMap at hd
  split at hd
  · refine ⟨scoredCandidates image_0 image_1 dmin dmax (bh / 2) (bw / 2) i j,
      rfl, ?_, ?_⟩
    · intro hnil
      rw [hnil] at hd
      simp at hd
    · intro p0 ps2 hcons
      rw [hcons] at hd
      simp only [Option.some.injEq] at hd
      exact hd.symm
  · simp at hd

theorem matVec_idMat3 (v : Vec3 ℚ) : matVec idMat3 v = v := by
  cases v
  simp [matVec, dotV, idMat3]

theorem vadd_zero_q (v : Vec3 ℚ) : vadd v ⟨0, 0, 0⟩ = v := by
  cases v
  simp [vadd]

theorem distort_pixels_zero (p : ℚ × ℚ) :
    distort_pixels (⟨0, 0, 0, 0⟩ : DistortionCoefficients ℚ) p = p := by
  simp [distort_pixels]

theorem undistortNormalized_zero (pd : ℚ × ℚ) (n : ℕ) :
    undistortNormalized ⟨0, 0, 0, 0⟩ pd n = pd := by
  induction n with
  | zero => rfl
  | succ k ih => simp [undistortNormalized, ih]

theorem normalize_pixels_zero (cm : CameraMatrix ℚ) (p : ℚ × ℚ) :
    normalize_pixels ⟨cm, ⟨0, 0, 0, 0⟩⟩ p =
      ((p.1 - cm.cx) / cm.fx, (p.2 - cm.cy) / cm.fy) := by
  simp [normalize_pixels, undistortNormalized_zero]

theorem RVal.mul_nan (a : RVal) : a * RVal.nan = RVal.nan := by
  cases a <;> rfl

theorem RVal.nonFinite_add_left (a b : RVal) (h : a.nonFinite = true) :
    (a + b).nonFinite = true := by
  cases a <;> cases b <;> simp_all [RVal.add_def, RVal.add, RVal.nonFinite]

theorem RVal.nonFinite_mul_left (a b : RVal) (h : a.nonFinite = true) :
    (a * b).nonFinite = true := by
  rw [RVal.mul_def]
  cases a with
  | fin q => exact absurd h (by simp [RVal.nonFinite])
  | inf =>
    cases b with
    | fin q =>
      simp only [RVal.mul]
      split
      · rfl
      · split <;> rfl
    | inf => rfl
    | ninf => rfl
    | nan => rfl
  | ninf =>
    cases b with
    | fin q =>
      simp only [RVal.mul]
      split
      · rfl
      · split <;> rfl
    | inf => rfl
    | ninf => rfl
    | nan => rfl
  | nan => cases b <;> rfl

theorem RVal.nonFinite_div_fin_zero (a : RVal) :
    (a / RVal.fin 0).nonFinite = true := by
  rw [RVal.div_def]
  cases a with
  | fin q =>
    simp only [RVal.div]
    rw [if_pos trivial]
    split
    · rfl
    · split <;> rfl
  | inf => simp only [RVal.div, if_pos le_rfl]; rfl
  | ninf => simp only [RVal.div, if_pos le_rfl]; rfl
  | nan => rfl

/-! ## Claim theorems -/

/-- Claim C8: `solve_pnp`, as defined in the source, returns `None` for
every input — its body is the ellipsis placeholder, so the documented
Gauss-Newton iteration is never executed — and the calling code then
substitutes NaN rotation and translation vectors. -/
theorem c8_solve_pnp_none_and_nan_fallback (points : List (Vec3 RVal))
    (pixels : List (RVal × RVal)) (lens_model : LensModel RVal)
    (rvec tvec : Vec3 RVal) (epsilon : ℚ) (max_iterations : ℕ) :
    solve_pnp points pixels lens_model rvec tvec epsilon max_iterations =
      none ∧
    solve_pnp_and_unpack points pixels lens_model rvec tvec epsilon
      max_iterations = (nanVec, nanVec) := by
  refine ⟨rfl, ?_⟩
  show (vecScale rvec RVal.nan, vecScale tvec RVal.nan) = (nanVec, nanVec)
  cases rvec
  cases tvec
  simp [vecScale, nanVec, RVal.mul_nan]

/-- Claim C9: `project_points(points, rvec, tvec, lens_model)` equals
`project_points_simple` applied to `R·points + tvec` where `R` is the
Rodrigues matrix of `rvec`; in particular, when the Rodrigues primitive
maps the zero vector to the identity matrix, `project_points` with zero
`rvec` and `tvec` coincides with `project_points_simple`. -/
theorem c9_project_points_is_simple_after_transform
    (rodrigues : Vec3 ℚ → Mat3 ℚ) (points : List (Vec3 ℚ))
    (rvec tvec : Vec3 ℚ) (lm : LensModel ℚ) :
    project_points rodrigues points rvec tvec lm =
      project_points_simple
        (points.map (fun p => vadd (matVec (rodrigues rvec) p) tvec)) lm ∧
    (rodrigues ⟨0, 0, 0⟩ = idMat3 →
      project_points rodrigues points ⟨0, 0, 0⟩ ⟨0, 0, 0⟩ lm =
        project_points_simple points lm) := by
  refine ⟨rfl, fun hrod => ?_⟩
  rw [project_points, hrod]
  have hid : ∀ p : Vec3 ℚ, vadd (matVec idMat3 p) ⟨0, 0, 0⟩ = p := by
    intro p
    rw [matVec_idMat3, vadd_zero_q]
  simp only [hid, List.map_id']

/-- Witness for C9 at a concrete Rodrigues primitive, point list and lens
model. -/
theorem c9_witness :
    (fun _ : Vec3 ℚ => idMat3) ⟨0, 0, 0⟩ = idMat3 ∧
    project_points (fun _ : Vec3 ℚ => idMat3) [⟨1, 2, 4⟩] ⟨0, 0, 0⟩ ⟨0, 0, 0⟩
        ⟨⟨2500, 2500, 1250, 1000⟩, ⟨3/10, -1/10, -1/50, 0⟩⟩ =
      project_points_simple [⟨1, 2, 4⟩]
        ⟨⟨2500, 2500, 1250, 1000⟩, ⟨3/10, -1/10, -1/50, 0⟩⟩ :=
  ⟨rfl, (c9_project_points_is_simple_after_transform (fun _ => idMat3)
    [⟨1, 2, 4⟩] ⟨0, 0, 0⟩ ⟨0, 0, 0⟩
    ⟨⟨2500, 2500, 1250, 1000⟩, ⟨3/10, -1/10, -1/50, 0⟩⟩).2 rfl⟩

/-- Claim C10: `project_points_simple` divides by each point's `Z`
coordinate without a guard: on an input containing a point with `Z = 0`
it neither fails nor marks the point invalid — the output still has an
entry for that point, a plain coordinate pair — and that entry's pixel
coordinates are non-finite (infinite or NaN). -/
theorem c10_project_points_simple_unguarded_z_zero
    (points : List (Vec3 RVal)) (lm : LensModel RVal) (i : ℕ) (p : Vec3 RVal)
    (hp : points[i]? = some p) (hz : p.z = RVal.fin 0) :
    (project_points_simple points lm)[i]? = some (projectPoint lm p) ∧
    (projectPoint lm p).1.nonFinite = true ∧
    (projectPoint lm p).2.nonFinite = true := by
  refine ⟨?_, ?_, ?_⟩
  · rw [project_points_simple, List.getElem?_map, hp]
    rfl
  · have hx : (p.x / p.z).nonFinite = true := by
      rw [hz]
      exact RVal.nonFinite_div_fin_zero p.x
    simp only [projectPoint, denormalize_pixels, distort_pixels]
    exact RVal.nonFinite_add_left _ _ (RVal.nonFinite_mul_left _ _
      (RVal.nonFinite_add_left _ _ (RVal.nonFinite_add_left _ _
        (RVal.nonFinite_mul_left _ _ hx))))
  · have hy : (p.y / p.z).nonFinite = true := by
      rw [hz]
      exact RVal.nonFinite_div_fin_zero p.y
    simp only [projectPoint, denormalize_pixels, distort_pixels]
    exact RVal.nonFinite_add_left _ _ (RVal.nonFinite_mul_left _ _
      (RVal.nonFinite_add_left _ _ (RVal.nonFinite_add_left _ _
        (RVal.nonFinite_mul_left _ _ hy))))

/-- Witness for C10 at a concrete point list with a `Z = 0` point. -/
theorem c10_witness :
    ([⟨RVal.fin 1, RVal.fin 2, RVal.fin 0⟩] :
        List (Vec3 RVal))[0]? = some ⟨RVal.fin 1, RVal.fin 2, RVal.fin 0⟩ ∧
    (project_points_simple [⟨RVal.fin 1, RVal.fin 2, RVal.fin 0⟩]
        ⟨⟨RVal.fin 1, RVal.fin 1, RVal.fin 0, RVal.fin 0⟩,
         ⟨RVal.fin 0, RVal.fin 0, RVal.fin 0, RVal.fin 0⟩⟩)[0]? =
      some (projectPoint
        ⟨⟨RVal.fin 1, RVal.fin 1, RVal.fin 0, RVal.fin 0⟩,
         ⟨RVal.fin 0, RVal.fin 0, RVal.fin 0, RVal.fin 0⟩⟩
        ⟨RVal.fin 1, RVal.fin 2, RVal.fin 0⟩) ∧
    (projectPoint
        ⟨⟨RVal.fin 1, RVal.fin 1, RVal.fin 0, RVal.fin 0⟩,
         ⟨RVal.fin 0, RVal.fin 0, RVal.fin 0, RVal.fin 0⟩⟩
        ⟨RVal.fin 1, RVal.fin 2, RVal.fin 0⟩).1.nonFinite = true ∧
    (projectPoint
        ⟨⟨RVal.fin 1, RVal.fin 1, RVal.fin 0, RVal.fin 0⟩,
         ⟨RVal.fin 0, RVal.fin 0, RVal.fin 0, RVal.fin 0⟩⟩
        ⟨RVal.fin 1, RVal.fin 2, RVal.fin 0⟩).2.nonFinite = true := by
  refine ⟨rfl, ?_⟩
  have h := c10_project_points_simple_unguarded_z_zero
    [⟨RVal.fin 1, RVal.fin 2, RVal.fin 0⟩]
    ⟨⟨RVal.fin 1, RVal.fin 1, RVal.fin 0, RVal.fin 0⟩,
     ⟨RVal.fin 0, RVal.fin 0, RVal.fin 0, RVal.fin 0⟩⟩ 0
    ⟨RVal.fin 1, RVal.fin 2, RVal.fin 0⟩ rfl rfl
  exact h

/-- Claim C1: for every valid call of `block_matching` (equal shapes, odd
block size, non-empty disparity range), every output pixel that is not
marked invalid holds a disparity inside the inclusive
`disparity_range`. -/
theorem c1_block_matching_disparity_in_range (image_0 image_1 : Image)
    (r : ℤ × ℤ) (bs : ℕ × ℕ) (dm : ℕ → ℕ → Option ℤ) (i j : ℕ) (d : ℤ)
    (hok : block_matching image_0 image_1 r bs = Except.ok dm)
    (hd : dm i j = some d) :
    r.1 ≤ d ∧ d ≤ r.2 := by
  obtain ⟨-, -, hle, hdm⟩ := block_matching_ok_inv hok
  rw [hdm] at hd
  obtain ⟨ps, hps, hne, hmin⟩ := disparityMap_some_inv hd
  cases hps2 : ps with
  | nil => exact absurd hps2 hne
  | cons p0 ps2 =>
    have hdval := hmin p0 ps2 hps2
    have hmem : argminAcc p0 ps2 ∈ p0 :: ps2 := argminAcc_mem ps2 p0
    rw [← hps2, ← hps] at hmem
    obtain ⟨dc, hdc, heq⟩ := List.mem_map.mp hmem
    have hdc2 : dc ∈ candidateList r.1 r.2 := (List.mem_filter.mp hdc).1
    have hddc : d = dc := by
      rw [hdval, ← heq]
    rw [hddc]
    exact candidateList_bounds hle hdc2

unseal Rat.add Rat.mul Rat.sub Rat.inv in
/-- Witness for C1 at the 8×8 gradient scenario. -/
theorem c1_witness :
    block_matching gradImage0 gradImage1 (0, 4) (3, 3) =
      Except.ok scenario_dm ∧
    scenario_dm 1 1 = some 0 ∧
    ((0 : ℤ) ≤ 0 ∧ (0 : ℤ) ≤ 4) :=
  ⟨rfl, by decide,
    c1_block_matching_disparity_in_range gradImage0 gradImage1 (0, 4) (3, 3)
      scenario_dm 1 1 0 rfl (by decide)⟩

/-- Claim C5: at every pixel where `block_matching` evaluates candidate
disparities, the selected disparity attains the minimal similarity score
among the evaluated candidates, and every candidate encountered before it
in search order has a strictly larger score — so ties keep the
first-encountered candidate. -/
theorem c5_block_matching_selects_first_minimum (image_0 image_1 : Image)
    (r : ℤ × ℤ) (bs : ℕ × ℕ) (dm : ℕ → ℕ → Option ℤ) (i j : ℕ) (d : ℤ)
    (hok : block_matching image_0 image_1 r bs = Except.ok dm)
    (hd : dm i j = some d) :
    ∃ q pre post,
      scoredCandidates image_0 image_1 r.1 r.2 (bs.1 / 2) (bs.2 / 2) i j =
        pre ++ (d, q) :: post ∧
      (∀ p ∈ scoredCandidates image_0 image_1 r.1 r.2 (bs.1 / 2) (bs.2 / 2)
        i j, q ≤ p.2) ∧
      (∀ p ∈ pre, q < p.2) := by
  obtain ⟨-, -, -, hdm⟩ := block_matching_ok_inv hok
  rw [hdm] at hd
  obtain ⟨ps, hps, hne, hmin⟩ := disparityMap_some_inv hd
  cases hps2 : ps with
  | nil => exact absurd hps2 hne
  | cons p0 ps2 =>
    have hdval := hmin p0 ps2 hps2
    obtain ⟨pre, post, hdec, hpre⟩ := argminAcc_decomp ps2 p0
    have hle := argminAcc_le ps2 p0
    refine ⟨(argminAcc p0 ps2).2, pre, post, ?_, ?_, ?_⟩
    · rw [hps, hps2, hdec, hdval]
    · intro p hp
      rw [hps, hps2] at hp
      rcases List.mem_cons.mp hp with hp | hp
      · rw [hp]
        exact hle.1
      · exact hle.2 p hp
    · exact hpre

unseal Rat.add Rat.mul Rat.sub Rat.inv in
/-- Witness for C5 at the 8×8 gradient scenario, pixel `(3, 3)`. -/
theorem c5_witness :
    block_matching gradImage0 gradImage1 (0, 4) (3, 3) =
      Except.ok scenario_dm ∧
    scenario_dm 3 3 = some 2 ∧
    ∃ q pre post,
      scoredCandidates gradImage0 gradImage1 0 4 1 1 3 3 =
        pre ++ ((2 : ℤ), q) :: post ∧
      (∀ p ∈ scoredCandidates gradImage0 gradImage1 0 4 1 1 3 3, q ≤ p.2) ∧
      (∀ p ∈ pre, q < p.2) :=
  ⟨rfl, by decide,
    c5_block_matching_selects_first_minimum gradImage0 gradImage1 (0, 4)
      (3, 3) scenario_dm 3 3 2 rfl (by decide)⟩

unseal Rat.add Rat.mul Rat.sub Rat.inv in
/-- Counterexample to claim C4: in the spec's own 8×8 shifted-gradient
scenario, pixel `(1, 1)` is interior (its 3×3 window fits), yet its output
disparity is `0`, not the shift `2`: for disparity `2` the shifted window
would leave `image_1`, so only candidate `0` is evaluated there. -/
theorem c4_counterexample :
    windowFits gradImage0 1 1 1 1 = true ∧
    scenario_dm 1 1 = some 0 ∧
    scenario_dm 1 1 ≠ some 2 := by
  refine ⟨by decide, by decide, by decide⟩

unseal Rat.add Rat.mul Rat.sub Rat.inv in
/-- Claim C4 as amended: in the 8×8 uniform-gradient scenario
(`block_size` 3×3, `disparity_range` `[0, 4]`, shift 2), every interior
pixel whose column lets the 2-shifted window stay inside `image_1`
(columns 3-6) holds disparity exactly 2; at interior columns 1 and 2,
where the shifted window would leave `image_1`, the best in-bounds
candidate (0 and 1 respectively) is returned instead. -/
theorem c4_amended_shifted_gradient :
    (∀ i ∈ Finset.Icc 1 6, ∀ j ∈ Finset.Icc 3 6,
      scenario_dm i j = some 2) ∧
    (∀ i ∈ Finset.Icc 1 6,
      scenario_dm i 1 = some 0 ∧ scenario_dm i 2 = some 1) := by
  refine ⟨by decide, by decide⟩

unseal Rat.add Rat.mul Rat.sub Rat.inv in
/-- Witness for the amended C4 at pixel `(3, 4)`. -/
theorem c4_witness :
    (3 ∈ Finset.Icc 1 6 ∧ 4 ∈ Finset.Icc 3 6) ∧
    scenario_dm 3 4 = some 2 :=
  ⟨⟨by decide, by decide⟩,
    c4_amended_shifted_gradient.1 3 (by decide) 4 (by decide)⟩

/-- Claim C6: for well-formed inputs, `block_matching` and `plane_sweeping`
never report an error (whatever choice resolves the spec's open question on
the wholly-absent result), and `triangulate_disparity` is total with
per-pixel failures represented only by the invalid marker in the output
grid: an invalid input disparity yields the invalid marker, never an
error. -/
theorem c6_no_error_on_wellformed (image_0 image_1 : Image) (r : ℤ × ℤ)
    (bs : ℕ × ℕ) (c : Bool) (img : Image) (lm : LensModel ℚ)
    (sis : List Image) (slms : List (LensModel ℚ)) (sts : List Pose)
    (zr : ℚ × ℚ) (ss : ℚ) (bs2 : ℕ × ℕ) (dmap : DisparityMapQ)
    (lm0 lm1 : LensModel ℚ) (pose : Pose) (i j : ℕ) :
    (image_0.h = image_1.h ∧ image_0.w = image_1.w →
      bs.1 % 2 = 1 ∧ bs.2 % 2 = 1 → r.1 ≤ r.2 →
      ∃ dm, block_matching image_0 image_1 r bs = Except.ok dm) ∧
    (sis.length = slms.length ∧ sis.length = sts.length ∧ 0 < sis.length →
      0 < ss → zr.1 ≤ zr.2 → bs2.1 % 2 = 1 ∧ bs2.2 % 2 = 1 →
      ∃ res, plane_sweeping c img lm sis slms sts zr ss bs2 =
        Except.ok res) ∧
    (dmap.val i j = none →
      ∀ g, triangulate_disparity c dmap lm0 lm1 pose = some g →
        g i j = none) := by
  refine ⟨?_, ?_, ?_⟩
  · intro hs hb hr
    rw [block_matching, if_pos hs, if_pos hb, if_pos hr]
    exact ⟨_, rfl⟩
  · intro hlists hss hzr hb
    rw [plane_sweeping, if_pos hlists, if_pos hss, if_pos hzr, if_pos hb]
    exact ⟨_, rfl⟩
  · intro hv g hg
    rw [triangulate_disparity] at hg
    split at hg
    · simp at hg
    · have hgg : g = triGrid dmap lm0 lm1 pose :=
        (Option.some.injEq _ _).mp hg.symm
      rw [hgg, triGrid, hv]

/-- Concrete 2×2 image used by witnesses. -/
def flatImage : Image :=
  ⟨2, 2, fun _ _ => 0⟩

/-- Concrete distortion-free lens model used by witnesses. -/
def wLens : LensModel ℚ :=
  ⟨⟨1, 1, 0, 0⟩, ⟨0, 0, 0, 0⟩⟩

/-- Concrete identity pose used by witnesses. -/
def wPose : Pose :=
  ⟨idMat3, ⟨0, 0, 0⟩⟩

/-- Concrete 1×1 all-invalid disparity map used by witnesses. -/
def wDisp : DisparityMapQ :=
  ⟨1, 1, fun _ _ => none⟩

/-- Witness for C6 at concrete well-formed inputs. -/
theorem c6_witness :
    (∃ dm, block_matching flatImage flatImage (0, 0) (1, 1) =
      Except.ok dm) ∧
    (∃ res, plane_sweeping false flatImage wLens [flatImage] [wLens]
      [wPose] (1, 1) 1 (1, 1) = Except.ok res) ∧
    triGrid wDisp wLens wLens wPose 0 0 = none := by
  have h := c6_no_error_on_wellformed flatImage flatImage (0, 0) (1, 1)
    false flatImage wLens [flatImage] [wLens] [wPose] (1, 1) 1 (1, 1)
    wDisp wLens wLens wPose 0 0
  refine ⟨h.1 ⟨rfl, rfl⟩ ⟨rfl, rfl⟩ le_rfl, ?_, ?_⟩
  · exact h.2.1 ⟨rfl, rfl, by decide⟩ one_pos le_rfl ⟨rfl, rfl⟩
  · exact h.2.2 rfl (triGrid wDisp wLens wLens wPose) rfl

/-- Claim C7: a zero-length disparity or depth range makes `block_matching`
or `plane_sweeping` evaluate exactly one candidate and return a normal
result rather than an error, while precondition violations — an even block
side, mismatched shapes, a non-positive `step_size` — are rejected
immediately at the call. -/
theorem c7_zero_length_ranges_and_rejections (image_0 image_1 : Image)
    (d0 : ℤ) (bs : ℕ × ℕ) (c : Bool) (img : Image) (lm : LensModel ℚ)
    (sis : List Image) (slms : List (LensModel ℚ)) (sts : List Pose)
    (z0 ss : ℚ) :
    candidateList d0 d0 = [d0] ∧
    depthPlanes z0 z0 ss = [z0] ∧
    (image_0.h = image_1.h ∧ image_0.w = image_1.w →
      bs.1 % 2 = 1 ∧ bs.2 % 2 = 1 →
      ∃ dm, block_matching image_0 image_1 (d0, d0) bs = Except.ok dm) ∧
    (sis.length = slms.length ∧ sis.length = sts.length ∧ 0 < sis.length →
      0 < ss → bs.1 % 2 = 1 ∧ bs.2 % 2 = 1 →
      ∃ res, plane_sweeping c img lm sis slms sts (z0, z0) ss bs =
        Except.ok res) ∧
    (bs.1 % 2 = 0 ∨ bs.2 % 2 = 0 →
      ∃ e, block_matching image_0 image_1 (d0, d0) bs = Except.error e) ∧
    (¬(image_0.h = image_1.h ∧ image_0.w = image_1.w) →
      ∃ e, block_matching image_0 image_1 (d0, d0) bs = Except.error e) ∧
    (ss ≤ 0 →
      ∃ e, plane_sweeping c img lm sis slms sts (z0, z0) ss bs =
        Except.error e) := by
  have hr1 : List.range 1 = [0] := rfl
  refine ⟨?_, ?_, ?_, ?_, ?_, ?_, ?_⟩
  · simp [candidateList, hr1]
  · simp [depthPlanes, hr1]
  · intro hs hb
    rw [block_matching, if_pos hs, if_pos hb, if_pos le_rfl]
    exact ⟨_, rfl⟩
  · intro hlists hss hb
    rw [plane_sweeping, if_pos hlists, if_pos hss, if_pos le_rfl, if_pos hb]
    exact ⟨_, rfl⟩
  · intro hb
    have hodd : ¬(bs.1 % 2 = 1 ∧ bs.2 % 2 = 1) := by omega
    by_cases hs : image_0.h = image_1.h ∧ image_0.w = image_1.w
    · rw [block_matching, if_pos hs, if_neg hodd]
      exact ⟨PreError.evenBlockSize, rfl⟩
    · rw [block_matching, if_neg hs]
      exact ⟨PreError.shapeMismatch, rfl⟩
  · intro hs
    rw [block_matching, if_neg hs]
    exact ⟨PreError.shapeMismatch, rfl⟩
  · intro hss
    by_cases hl : sis.length = slms.length ∧ sis.length = sts.length ∧
      0 < sis.length
    · rw [plane_sweeping, if_pos hl, if_neg (not_lt.mpr hss)]
      exact ⟨PreError.invalidStepSize, rfl⟩
    · rw [plane_sweeping, if_neg hl]
      exact ⟨PreError.mismatchedLists, rfl⟩

/-- Witness for C7 at concrete inputs, including a rejected even block size
and a rejected non-positive step size. -/
theorem c7_witness :
    candidateList 3 3 = [3] ∧
    depthPlanes 5 5 1 = [5] ∧
    (∃ dm, block_matching flatImage flatImage (3, 3) (1, 1) =
      Except.ok dm) ∧
    (∃ res, plane_sweeping false flatImage wLens [flatImage] [wLens]
      [wPose] (5, 5) 1 (1, 1) = Except.ok res) ∧
    (∃ e, block_matching flatImage flatImage (3, 3) (2, 2) =
      Except.error e) ∧
    (∃ e, plane_sweeping false flatImage wLens [flatImage] [wLens] [wPose]
      (5, 5) 0 (1, 1) = Except.error e) := by
  obtain ⟨ha, hb, hc, hd, -, -, -⟩ :=
    c7_zero_length_ranges_and_rejections flatImage flatImage 3
      (1, 1) false flatImage wLens [flatImage] [wLens] [wPose] 5 1
  obtain ⟨-, -, -, -, he, -, -⟩ :=
    c7_zero_length_ranges_and_rejections flatImage flatImage 3
      (2, 2) false flatImage wLens [flatImage] [wLens] [wPose] 5 0
  refine ⟨ha, hb, ?_, ?_, ?_, ?_⟩
  · exact hc ⟨rfl, rfl⟩ ⟨rfl, rfl⟩
  · exact hd ⟨rfl, rfl, by decide⟩ one_pos ⟨rfl, rfl⟩
  · exact he (Or.inl rfl)
  · rw [plane_sweeping,
      if_pos (⟨rfl, rfl, by decide⟩ :
        [flatImage].length = [wLens].length ∧
        [flatImage].length = [wPose].length ∧ 0 < [flatImage].length),
      if_neg (by norm_num : ¬((0 : ℚ) < 0))]
    exact ⟨_, rfl⟩

theorem triangulatePixel_roundtrip (cm0 cm1 : CameraMatrix ℚ) (tx Zv : ℚ)
    (i j : ℕ) (hfx1 : cm1.fx ≠ 0) (htx : tx ≠ 0) (hZ : 0 < Zv) :
    triangulatePixel ⟨cm0, ⟨0, 0, 0, 0⟩⟩ ⟨cm1, ⟨0, 0, 0, 0⟩⟩
      ⟨idMat3, ⟨tx, 0, 0⟩⟩ i j
      ((j : ℚ) - (projectPoint (⟨cm1, ⟨0, 0, 0, 0⟩⟩ : LensModel ℚ)
        (vadd (matVec idMat3 (backProjectPixel ⟨cm0, ⟨0, 0, 0, 0⟩⟩ j i Zv))
          ⟨tx, 0, 0⟩)).1) =
      some (backProjectPixel ⟨cm0, ⟨0, 0, 0, 0⟩⟩ j i Zv) := by
  have hZ0 : Zv ≠ 0 := ne_of_gt hZ
  set a := ((j : ℚ) - cm0.cx) / cm0.fx with ha
  set b := ((i : ℚ) - cm0.cy) / cm0.fy with hb
  have hbp : backProjectPixel ⟨cm0, ⟨0, 0, 0, 0⟩⟩ j i Zv =
      ⟨a * Zv, b * Zv, Zv⟩ := by
    rw [backProjectPixel, normalize_pixels_zero]
  have hpx : (projectPoint (⟨cm1, ⟨0, 0, 0, 0⟩⟩ : LensModel ℚ)
      (vadd (matVec idMat3 (backProjectPixel ⟨cm0, ⟨0, 0, 0, 0⟩⟩ j i Zv))
        ⟨tx, 0, 0⟩)).1 =
      ((a * Zv + tx) / Zv) * cm1.fx + cm1.cx := by
    rw [hbp, matVec_idMat3]
    show (projectPoint (⟨cm1, ⟨0, 0, 0, 0⟩⟩ : LensModel ℚ)
      ⟨a * Zv + tx, b * Zv + 0, Zv + 0⟩).1 =
      ((a * Zv + tx) / Zv) * cm1.fx + cm1.cx
    rw [projectPoint, distort_pixels_zero]
    show (a * Zv + tx) / (Zv + 0) * cm1.fx + cm1.cx =
      (a * Zv + tx) / Zv * cm1.fx + cm1.cx
    rw [add_zero]
  rw [hpx, triangulatePixel, normalize_pixels_zero, normalize_pixels_zero]
  have hn1 : ((j : ℚ) - ((a * Zv + tx) / Zv * cm1.fx + cm1.cx) - (j : ℚ) +
      (a * Zv + tx) / Zv * cm1.fx + cm1.cx) = 0 := by ring
  have hx1 : ((j : ℚ) - ((j : ℚ) - ((a * Zv + tx) / Zv * cm1.fx + cm1.cx)) -
      cm1.cx) / cm1.fx = (a * Zv + tx) / Zv := by
    field_simp
    ring
  rw [hx1]
  have hden : (a * Zv + tx) / Zv - a = tx / Zv := by
    field_simp
    ring
  have hdenne : (a * Zv + tx) / Zv - a ≠ 0 := by
    rw [hden]
    exact div_ne_zero htx hZ0
  rw [if_neg hdenne, hden]
  have hz2 : tx / (tx / Zv) = Zv := by
    rw [div_div_eq_mul_div, mul_comm, mul_div_assoc, div_self htx, mul_one]
  rw [hz2, if_neg (not_le.mpr hZ), hbp]

/-- Claim C3: triangulation is a right inverse of projection.  For a 3D
point field lying on the reference pixel rays (the points a disparity map
can encode), projecting each point into the second, baseline-displaced
camera and recording the pixel disparity, then applying
`triangulate_disparity` with the two (distortion-free) lens models and the
relative transform, reproduces the original 3D points exactly. -/
theorem c3_triangulate_inverts_projection (c : Bool)
    (cm0 cm1 : CameraMatrix ℚ) (tx : ℚ) (Z : ℕ → ℕ → ℚ) (h w i j : ℕ)
    (hfx1 : cm1.fx ≠ 0) (htx : tx ≠ 0) (hZ : 0 < Z i j)
    (hi : i < h) (hj : j < w) :
    ∃ g,
      triangulate_disparity c
        ⟨h, w, fun i2 j2 => some ((j2 : ℚ) -
          (projectPoint (⟨cm1, ⟨0, 0, 0, 0⟩⟩ : LensModel ℚ)
            (vadd (matVec idMat3
              (backProjectPixel ⟨cm0, ⟨0, 0, 0, 0⟩⟩ j2 i2 (Z i2 j2)))
              ⟨tx, 0, 0⟩)).1)⟩
        ⟨cm0, ⟨0, 0, 0, 0⟩⟩ ⟨cm1, ⟨0, 0, 0, 0⟩⟩ ⟨idMat3, ⟨tx, 0, 0⟩⟩ =
        some g ∧
      g i j = some (backProjectPixel ⟨cm0, ⟨0, 0, 0, 0⟩⟩ j i (Z i j)) := by
  have hpix : triGrid
      ⟨h, w, fun i2 j2 => some ((j2 : ℚ) -
        (projectPoint (⟨cm1, ⟨0, 0, 0, 0⟩⟩ : LensModel ℚ)
          (vadd (matVec idMat3
            (backProjectPixel ⟨cm0, ⟨0, 0, 0, 0⟩⟩ j2 i2 (Z i2 j2)))
            ⟨tx, 0, 0⟩)).1)⟩
      ⟨cm0, ⟨0, 0, 0, 0⟩⟩ ⟨cm1, ⟨0, 0, 0, 0⟩⟩ ⟨idMat3, ⟨tx, 0, 0⟩⟩ i j =
      some (backProjectPixel ⟨cm0, ⟨0, 0, 0, 0⟩⟩ j i (Z i j)) :=
    triangulatePixel_roundtrip cm0 cm1 tx (Z i j) i j hfx1 htx hZ
  refine ⟨_, ?_, hpix⟩
  simp only [triangulate_disparity]
  have hall : ((List.range h).all fun i2 => (List.range w).all fun j2 =>
      (triGrid
        ⟨h, w, fun i2 j2 => some ((j2 : ℚ) -
          (projectPoint (⟨cm1, ⟨0, 0, 0, 0⟩⟩ : LensModel ℚ)
            (vadd (matVec idMat3
              (backProjectPixel ⟨cm0, ⟨0, 0, 0, 0⟩⟩ j2 i2 (Z i2 j2)))
              ⟨tx, 0, 0⟩)).1)⟩
        ⟨cm0, ⟨0, 0, 0, 0⟩⟩ ⟨cm1, ⟨0, 0, 0, 0⟩⟩ ⟨idMat3, ⟨tx, 0, 0⟩⟩
        i2 j2).isNone) = false := by
    rw [Bool.eq_false_iff]
    intro htrue
    have h1 := List.all_eq_true.mp htrue i (List.mem_range.mpr hi)
    have h2 := List.all_eq_true.mp h1 j (List.mem_range.mpr hj)
    rw [hpix] at h2
    simp at h2
  rw [hall, Bool.and_false]
  simp

/-- Witness for C3 at a concrete camera pair, baseline and depth field. -/
theorem c3_witness :
    ∃ g,
      triangulate_disparity false
        ⟨2, 2, fun i2 j2 => some ((j2 : ℚ) -
          (projectPoint (⟨⟨2, 2, 1, 1⟩, ⟨0, 0, 0, 0⟩⟩ : LensModel ℚ)
            (vadd (matVec idMat3
              (backProjectPixel ⟨⟨2, 2, 1, 1⟩, ⟨0, 0, 0, 0⟩⟩ j2 i2
                ((fun _ _ : ℕ => (5 : ℚ)) i2 j2)))
              ⟨-1, 0, 0⟩)).1)⟩
        ⟨⟨2, 2, 1, 1⟩, ⟨0, 0, 0, 0⟩⟩ ⟨⟨2, 2, 1, 1⟩, ⟨0, 0, 0, 0⟩⟩
        ⟨idMat3, ⟨-1, 0, 0⟩⟩ = some g ∧
      g 0 0 = some (backProjectPixel ⟨⟨2, 2, 1, 1⟩, ⟨0, 0, 0, 0⟩⟩ 0 0
        ((fun _ _ : ℕ => (5 : ℚ)) 0 0)) :=
  c3_triangulate_inverts_projection false ⟨2, 2, 1, 1⟩ ⟨2, 2, 1, 1⟩ (-1)
    (fun _ _ => 5) 2 2 0 0 (by norm_num) (by norm_num) (by norm_num)
    (by decide) (by decide)
